import Mathlib

/-!
Shallow embedding of the VPlan recipe implementations
(llvm/lib/Transforms/Vectorize/VPlanRecipes.cpp) used by the loop
vectorizer, together with theorems about the effect classifier, the
block-membership operations and the per-recipe lowering procedures.

Machine values are modelled with unbounded `Int`; a target value is either
a scalar or a vector of lanes.  Fallible operations (assertion-guarded
code) return `Option`, with `none` modelling an assertion failure
(internal invariant violation aborting the pass).
-/

/-- The recipe-kind tags (`VPDefID`) that the effect classifier dispatches
on.  `otherSC` stands for any tag that reaches the `default:` branch of
every switch (for example interleave groups or widened memory-op helpers
not named explicitly in the switches). -/
inductive VPDefID where
  | VPWidenMemoryInstructionSC
  | VPReplicateSC
  | VPWidenCallSC
  | VPBranchOnMaskSC
  | VPWidenIntOrFpInductionSC
  | VPWidenPointerInductionSC
  | VPWidenCanonicalIVSC
  | VPWidenPHISC
  | VPBlendSC
  | VPWidenSC
  | VPWidenGEPSC
  | VPReductionSC
  | VPWidenSelectSC
  | VPScalarIVStepsSC
  | VPInstructionSC
  | otherSC
deriving DecidableEq, Repr

/-- The effect view of an original (underlying) IR instruction mirrored by
a recipe: the three queries this file consults on it. -/
structure Instruction where
  mayWriteToMemory : Bool
  mayReadFromMemory : Bool
  mayHaveSideEffects : Bool
deriving DecidableEq, Repr

/-- The part of a `VPRecipeBase` consulted by the effect classifier: its
kind tag, whether a memory recipe is a store (`isStore()`), and the
optional underlying instruction
(`dyn_cast_or_null<Instruction>(getVPSingleValue()->getUnderlyingValue())`).
-/
structure VPRecipeBase where
  vpDefID : VPDefID
  isStore : Bool
  underlyingValue : Option Instruction
deriving DecidableEq, Repr

/-- `VPRecipeBase::mayWriteToMemory`.  `none` models an assertion failure:
either the `cast<Instruction>` on a replicate/call recipe with no
underlying instruction, or the consistency assert
`!I || !I->mayWriteToMemory()` on the pure widening kinds. -/
def VPRecipeBase.mayWriteToMemory (r : VPRecipeBase) : Option Bool :=
  match r.vpDefID with
  | .VPWidenMemoryInstructionSC => some r.isStore
  | .VPReplicateSC | .VPWidenCallSC =>
      match r.underlyingValue with
      | some I => some I.mayWriteToMemory
      | none => none
  | .VPBranchOnMaskSC => some false
  | .VPWidenIntOrFpInductionSC | .VPWidenCanonicalIVSC | .VPWidenPHISC
  | .VPBlendSC | .VPWidenSC | .VPWidenGEPSC | .VPReductionSC
  | .VPWidenSelectSC =>
      match r.underlyingValue with
      | some I => if I.mayWriteToMemory then none else some false
      | none => some false
  | _ => some true

/-- `VPRecipeBase::mayReadFromMemory`.  Same dispatch structure as
`mayWriteToMemory`; the memory recipe answers `!isStore()`, and the pure
kinds assert `!I || !I->mayReadFromMemory()`. -/
def VPRecipeBase.mayReadFromMemory (r : VPRecipeBase) : Option Bool :=
  match r.vpDefID with
  | .VPWidenMemoryInstructionSC => some (!r.isStore)
  | .VPReplicateSC | .VPWidenCallSC =>
      match r.underlyingValue with
      | some I => some I.mayReadFromMemory
      | none => none
  | .VPBranchOnMaskSC => some false
  | .VPWidenIntOrFpInductionSC | .VPWidenCanonicalIVSC | .VPWidenPHISC
  | .VPBlendSC | .VPWidenSC | .VPWidenGEPSC | .VPReductionSC
  | .VPWidenSelectSC =>
      match r.underlyingValue with
      | some I => if I.mayReadFromMemory then none else some false
      | none => some false
  | _ => some true

/-- `VPRecipeBase::mayHaveSideEffects`.  Its pure-kind list additionally
contains the pointer-induction and scalar-IV-steps kinds; a replicate
recipe reports the underlying instruction's side-effect flag
(`cast`, so a missing instruction is an assertion failure). -/
def VPRecipeBase.mayHaveSideEffects (r : VPRecipeBase) : Option Bool :=
  match r.vpDefID with
  | .VPWidenIntOrFpInductionSC | .VPWidenPointerInductionSC
  | .VPWidenCanonicalIVSC | .VPWidenPHISC | .VPBlendSC | .VPWidenSC
  | .VPWidenGEPSC | .VPReductionSC | .VPWidenSelectSC
  | .VPScalarIVStepsSC =>
      match r.underlyingValue with
      | some I => if I.mayHaveSideEffects then none else some false
      | none => some false
  | .VPReplicateSC =>
      match r.underlyingValue with
      | some I => some I.mayHaveSideEffects
      | none => none
  | _ => some true

/-- The recipe kinds listed in the pure case of `mayWriteToMemory` and
`mayReadFromMemory`. -/
def pureRWKind : VPDefID → Bool
  | .VPWidenIntOrFpInductionSC | .VPWidenCanonicalIVSC | .VPWidenPHISC
  | .VPBlendSC | .VPWidenSC | .VPWidenGEPSC | .VPReductionSC
  | .VPWidenSelectSC => true
  | _ => false

/-- The recipe kinds listed in the pure case of `mayHaveSideEffects`. -/
def pureSEKind : VPDefID → Bool
  | .VPWidenIntOrFpInductionSC | .VPWidenPointerInductionSC
  | .VPWidenCanonicalIVSC | .VPWidenPHISC | .VPBlendSC | .VPWidenSC
  | .VPWidenGEPSC | .VPReductionSC | .VPWidenSelectSC
  | .VPScalarIVStepsSC => true
  | _ => false

/-!
## Block membership (`VPRecipeBase::insertBefore/insertAfter/removeFromParent`)

Recipes are identified by `Nat` ids; a `VPBasicBlock` is its ordered
recipe list and blocks are identified by `Nat` ids as well.  The
`Parent` back-pointer of each recipe is tracked explicitly, mirroring the
intrusive-list implementation.
-/

/-- The state the block-membership operations act on: each block's
ordered recipe list (`getRecipeList()`) and each recipe's `Parent`
back-pointer. -/
structure VPBasicBlocksState where
  recipeLists : Nat → List Nat
  parent : Nat → Option Nat

/-- `iplist::insert(InsertPos->getIterator(), this)`: insert `r`
immediately before the (unique) occurrence of `p`. -/
def listInsertBefore (r p : Nat) : List Nat → List Nat
  | [] => []
  | x :: xs => if x = p then r :: x :: xs else x :: listInsertBefore r p xs

/-- `iplist::insertAfter(InsertPos->getIterator(), this)`: insert `r`
immediately after the (unique) occurrence of `p`. -/
def listInsertAfter (r p : Nat) : List Nat → List Nat
  | [] => []
  | x :: xs => if x = p then x :: r :: xs else x :: listInsertAfter r p xs

/-- `VPRecipeBase::insertBefore(VPRecipeBase *InsertPos)`.  `none` models
a failed assertion: `r` already has a parent, or the insertion position
is not in any block. -/
def VPRecipeBase.insertBefore (r insertPos : Nat) (st : VPBasicBlocksState) :
    Option VPBasicBlocksState :=
  match st.parent r with
  | some _ => none
  | none =>
    match st.parent insertPos with
    | none => none
    | some b =>
      some { recipeLists := fun b2 =>
               if b2 = b then listInsertBefore r insertPos (st.recipeLists b)
               else st.recipeLists b2,
             parent := fun x => if x = r then some b else st.parent x }

/-- `VPRecipeBase::insertAfter(VPRecipeBase *InsertPos)`. -/
def VPRecipeBase.insertAfter (r insertPos : Nat) (st : VPBasicBlocksState) :
    Option VPBasicBlocksState :=
  match st.parent r with
  | some _ => none
  | none =>
    match st.parent insertPos with
    | none => none
    | some b =>
      some { recipeLists := fun b2 =>
               if b2 = b then listInsertAfter r insertPos (st.recipeLists b)
               else st.recipeLists b2,
             parent := fun x => if x = r then some b else st.parent x }

/-- `VPRecipeBase::removeFromParent()`.  `none` models the failed
assertion `getParent() && "Recipe not in any VPBasicBlock"`. -/
def VPRecipeBase.removeFromParent (r : Nat) (st : VPBasicBlocksState) :
    Option VPBasicBlocksState :=
  match st.parent r with
  | none => none
  | some b =>
    some { recipeLists := fun b2 =>
             if b2 = b then (st.recipeLists b).erase r else st.recipeLists b2,
           parent := fun x => if x = r then none else st.parent x }

/-!
## `VPWidenIntOrFpInductionRecipe::isCanonical`
-/

/-- The part of a widened integer/float induction recipe consulted by
`isCanonical`: `dyn_cast<ConstantInt>(getStartValue()->getLiveInIRValue())`
and `dyn_cast<SCEVConstant>(getInductionDescriptor().getStep())`, each
`none` when the cast fails (the value is not a literal constant). -/
structure VPWidenIntOrFpInductionRecipe where
  startConstInt : Option Int
  stepSCEVConst : Option Int
deriving DecidableEq, Repr

/-- `VPWidenIntOrFpInductionRecipe::isCanonical`:
`StartC && StartC->isZero() && StepC && StepC->isOne()`. -/
def VPWidenIntOrFpInductionRecipe.isCanonical
    (r : VPWidenIntOrFpInductionRecipe) : Bool :=
  match r.startConstInt, r.stepSCEVConst with
  | some startC, some stepC => startC == 0 && stepC == 1
  | _, _ => false

/-!
## Target values and the emitter operations used by the lowering code
-/

/-- A generated target value: a scalar or a vector of lanes. -/
inductive Val where
  | scalar (n : Int)
  | vec (lanes : List Int)
deriving DecidableEq, Repr

/-- `Value::getType()->isVectorTy()` on a modelled value. -/
def Val.isVectorTy : Val → Bool
  | .scalar _ => false
  | .vec _ => true

/-- Elementwise addition of two lane lists (the vector case of the
emitter's `CreateAdd`). -/
def addLanes : List Int → List Int → List Int
  | a :: as, b :: bs => (a + b) :: addLanes as bs
  | _, _ => []

/-- The emitter's `CreateAdd`, elementwise on matching shapes.  The
mixed-shape fallback is never reached by the lowering code modelled here
(operands of an add always have one type). -/
def CreateAdd : Val → Val → Val
  | .scalar a, .scalar b => .scalar (a + b)
  | .vec a, .vec b => .vec (addLanes a b)
  | a, _ => a

/-- The emitter's `CreateVectorSplat`: broadcast a scalar to `VF` lanes. -/
def CreateVectorSplat (VF : Nat) (v : Int) : Val :=
  .vec (List.replicate VF v)

/-- The emitter's `CreateInsertElement` at a constant index: replace lane
`idx`.  The scalar fallback is never reached by the modelled lowering
code. -/
def CreateInsertElement (v : Val) (x : Int) (idx : Nat) : Val :=
  match v with
  | .vec ls => .vec (ls.set idx x)
  | .scalar s => .scalar s

/-- The emitter's `CreateStepVector`: the lane-index ramp `0, 1, 2, …`
of width `W`. -/
def CreateStepVector (W : Nat) : List Int :=
  (List.range W).map Int.ofNat

/-- The emitter's `CreateVectorSplice` with offset `-1`: lane 0 of the
result is the last lane of the first operand, lanes `1..W-1` are lanes
`0..W-2` of the second operand.  The non-vector fallback is never
reached (the caller tests `isVectorTy` first). -/
def CreateVectorSplice (a b : Val) : Val :=
  match a, b with
  | .vec la, .vec lb => .vec (la.drop (la.length - 1) ++ lb.take (lb.length - 1))
  | a, _ => a

/-- Modelled from the spec: `createStepForVF` (an external loop-utility
helper whose definition is not part of this file's source) produces the
scalar step `vectorWidth * step` — section 4.5 specifies the canonical
induction increment as `next = phi + (vectorWidth * unrollCount)` where
the helper is invoked with `step = unrollCount`. -/
def createStepForVF (VF step : Nat) : Int :=
  (VF * step : Nat)

/-!
## `VPInstruction::generateInstruction`, canonical-IV-increment case

The `CanonicalIVIncrement` / `CanonicalIVIncrementNUW` case of the opcode
switch.  The per-part value cache for this recipe's result is modelled as
the list whose index is the part: `State.set(this, Next, Part)` appends,
and `State.get(this, 0)` reads index 0 of the cache built so far.  The
canonical induction phi is scalar, so its part-0 generated value is an
`Int`. -/

/-- The `CanonicalIVIncrement`/`CanonicalIVIncrementNUW` case of
`VPInstruction::generateInstruction`, run for parts `0..UF-1` in order:
part 0 emits `Builder.CreateAdd(Phi, createStepForVF(VF, UF))`, every
later part stores `State.get(this, 0)`.  The no-unsigned-wrap variant
differs only in the wrap flag on the emitted add, not in the value. -/
def generateCanonicalIVIncrement (phi0 : Int) (VF UF : Nat) : List Int :=
  (List.range UF).foldl
    (fun cache part =>
      let next :=
        if part = 0 then phi0 + createStepForVF VF UF
        else cache.getD 0 0
      cache ++ [next])
    []

/-!
## `VPInstruction::generateInstruction`, first-order-recurrence-splice case
-/

/-- The `FirstOrderRecurrenceSplice` case of
`VPInstruction::generateInstruction` at one part: `phiV` is
`State.get(getOperand(0), 0)` (the recurrence phi's generated value) and
`cur p` is `State.get(getOperand(1), p)`.  A non-vector previous value is
passed through unchanged; otherwise a vector splice with offset `-1` is
emitted. -/
def generateFirstOrderRecurrenceSplice (phiV : Val) (cur : Nat → Val)
    (Part : Nat) : Val :=
  let V1 := phiV
  let PartMinus1 := if Part = 0 then V1 else cur (Part - 1)
  if !PartMinus1.isVectorTy then PartMinus1
  else CreateVectorSplice PartMinus1 (cur Part)

/-!
## `VPWidenCanonicalIVRecipe::execute`
-/

/-- `VPWidenCanonicalIVRecipe::execute`: `canonicalIV` is
`State.get(getOperand(0), 0)` (the scalar canonical counter).  The result
list holds the value stored for each part `0..UF-1`: the broadcast (or,
at unit width, reused) counter plus a per-part step, where for vector
width the step is the broadcast `createStepForVF VF part` plus the
lane-index ramp. -/
def VPWidenCanonicalIVRecipe.execute (canonicalIV : Int) (VF UF : Nat) :
    List Val :=
  let VStart : Val :=
    if VF = 1 then .scalar canonicalIV else CreateVectorSplat VF canonicalIV
  (List.range UF).map (fun part =>
    let VStep : Val := .scalar (createStepForVF VF part)
    let VStep : Val :=
      if 1 < VF then
        let s := CreateVectorSplat VF (createStepForVF VF part)
        CreateAdd s (.vec (CreateStepVector VF))
      else VStep
    CreateAdd VStart VStep)

/-!
## `VPReductionPHIRecipe::execute` (phase-1 seeding)
-/

/-- Recurrence kinds, as in `RecurKind` (a representative subset; the
min/max and select-compare buckets are what the seeding code
distinguishes). -/
inductive RecurKind where
  | Add | Mul | Or | Xor | SMin | SMax | UMin | UMax | SelectICmp
deriving DecidableEq, Repr

/-- `RecurrenceDescriptor::isMinMaxRecurrenceKind`. -/
def isMinMaxRecurrenceKind : RecurKind → Bool
  | .SMin | .SMax | .UMin | .UMax => true
  | _ => false

/-- `RecurrenceDescriptor::isSelectCmpRecurrenceKind`. -/
def isSelectCmpRecurrenceKind : RecurKind → Bool
  | .SelectICmp => true
  | _ => false

/-- Modelled from the spec: `RecurrenceDescriptor::getRecurrenceIdentity`
is an external identity-element lookup (section 6(d)); section 4.6 fixes
the additive identity to zero and the multiplicative identity to one; the
bitwise or/xor identities are likewise their neutral elements.  The
min/max and select-compare kinds never reach this lookup (the caller
branches on them first); they are given a junk value. -/
def getRecurrenceIdentity : RecurKind → Int
  | .Add => 0
  | .Mul => 1
  | .Or => 0
  | .Xor => 0
  | _ => 0

/-- The fields of a `VPReductionPHIRecipe` consulted by its `execute`:
the live-in start value, the recurrence kind of its descriptor, and the
in-loop/ordered flags. -/
structure VPReductionPHIRecipe where
  startV : Int
  rk : RecurKind
  isInLoop : Bool
  isOrdered : Bool
deriving DecidableEq, Repr

/-- `VPReductionPHIRecipe::execute`, phase-1 seeding: the list of values
added on the loop-entry (preheader) edge of the placeholder phi created
for each part (`Part < LastPartForNewPhi`).  Index `part` of the result
is the incoming value `(Part == 0) ? StartV : Iden` of that part's
placeholder. -/
def VPReductionPHIRecipe.executeSeeds (r : VPReductionPHIRecipe)
    (VF UF : Nat) : List Val :=
  let ScalarPHI := VF == 1 || r.isInLoop
  let LastPartForNewPhi := if r.isOrdered then 1 else UF
  let startIden : Val × Val :=
    if isMinMaxRecurrenceKind r.rk || isSelectCmpRecurrenceKind r.rk then
      if ScalarPHI then (.scalar r.startV, .scalar r.startV)
      else (CreateVectorSplat VF r.startV, CreateVectorSplat VF r.startV)
    else
      let iden := getRecurrenceIdentity r.rk
      if ScalarPHI then (.scalar r.startV, .scalar iden)
      else
        let idenV := CreateVectorSplat VF iden
        (CreateInsertElement idenV r.startV 0, idenV)
  (List.range LastPartForNewPhi).map
    (fun part => if part = 0 then startIden.1 else startIden.2)

/-- The sum of all lanes of a value (a scalar counts as its own single
lane). -/
def valSum : Val → Int
  | .scalar n => n
  | .vec ls => ls.sum

/-!
## `VPWidenRecipe::execute`, binary/unary arithmetic case — IR flags
-/

/-- The poison-implying numeric-safety flags of an instruction
(no-unsigned-wrap, no-signed-wrap, exact). -/
structure IRFlags where
  nuw : Bool
  nsw : Bool
  isExact : Bool
deriving DecidableEq, Repr

/-- `Instruction::dropPoisonGeneratingFlags`: clear every
poison-implying flag. -/
def dropPoisonGeneratingFlags (_f : IRFlags) : IRFlags :=
  ⟨false, false, false⟩

/-- The flag handling of the binop/unop case of `VPWidenRecipe::execute`:
for each part, the emitted operation first receives a copy of the
original instruction's flags (`VecOp->copyIRFlags(&I)`) and then, exactly
when the recipe is in `State.MayGeneratePoisonRecipes`, has its
poison-generating flags dropped.  Index `part` of the result is the flag
set the part's emitted value carries. -/
def VPWidenRecipe.executeFlags (origFlags : IRFlags)
    (mayGeneratePoisonContains : Bool) (UF : Nat) : List IRFlags :=
  (List.range UF).map (fun _part =>
    let copied := origFlags
    if mayGeneratePoisonContains then dropPoisonGeneratingFlags copied
    else copied)

/-!
## `VPInstruction::execute`
-/

/-- Fast-math flags, as an abstract bit set. -/
structure FastMathFlags where
  bits : Nat
deriving DecidableEq, Repr

/-- The fields of `VPTransformState` that `VPInstruction::execute`
touches: the unroll factor, the optional active per-lane `Instance`, and
the emitter's current fast-math flags. -/
structure VPTransformState where
  UF : Nat
  Instance : Option (Nat × Nat)
  builderFMF : FastMathFlags
deriving DecidableEq, Repr

/-- One invocation of `generateInstruction`: the part it was invoked for
and the emitter's fast-math flags at the moment of the call. -/
structure GenEvent where
  part : Nat
  fmfAtCall : FastMathFlags
deriving DecidableEq, Repr

/-- `VPInstruction::execute`: asserts that no per-lane `Instance` is
active (`none` models the assertion failure), installs the recipe's
fast-math flags on the emitter under a `FastMathFlagGuard`, invokes
`generateInstruction` once per part `0..UF-1` in order (recorded as a
`GenEvent` trace), and restores the emitter's previous flags when the
guard leaves scope. -/
def VPInstruction.execute (FMF : FastMathFlags) (State : VPTransformState) :
    Option (VPTransformState × List GenEvent) :=
  if State.Instance.isSome then none
  else
    let saved := State.builderFMF
    let State1 := { State with builderFMF := FMF }
    let events := (List.range State1.UF).map
      (fun part => { part := part, fmfAtCall := State1.builderFMF : GenEvent })
    some ({ State1 with builderFMF := saved }, events)

/-!
## Helper lemmas
-/

/-- Inserting `r` before any position in a list not containing `r` and
then erasing `r` restores the list. -/
theorem listInsertBefore_erase (r p : Nat) :
    ∀ l : List Nat, r ∉ l → (listInsertBefore r p l).erase r = l := by
  intro l
  induction l with
  | nil => intro _; rfl
  | cons x xs ih =>
    intro hmem
    have hx : x ≠ r := fun h => hmem (h ▸ List.mem_cons_self x xs)
    have hxs : r ∉ xs := fun h => hmem (List.mem_cons_of_mem x h)
    by_cases hp : x = p
    · simp [listInsertBefore, hp, List.erase_cons_head]
    · rw [listInsertBefore, if_neg hp, List.erase_cons_tail, ih hxs]
      simp [hx]

/-- Inserting `r` after any position in a list not containing `r` and
then erasing `r` restores the list. -/
theorem listInsertAfter_erase (r p : Nat) :
    ∀ l : List Nat, r ∉ l → (listInsertAfter r p l).erase r = l := by
  intro l
  induction l with
  | nil => intro _; rfl
  | cons x xs ih =>
    intro hmem
    have hx : x ≠ r := fun h => hmem (h ▸ List.mem_cons_self x xs)
    have hxs : r ∉ xs := fun h => hmem (List.mem_cons_of_mem x h)
    by_cases hp : x = p
    · rw [listInsertAfter, if_pos hp, List.erase_cons_tail, List.erase_cons_head]
      simp [hx]
    · rw [listInsertAfter, if_neg hp, List.erase_cons_tail, ih hxs]
      simp [hx]

/-- Mapping a part-0-distinguishing conditional over `List.range n`
yields the part-0 value followed by copies of the other value. -/
theorem range_map_ite {α : Type} (a b : α) (n : Nat) (h : 1 ≤ n) :
    (List.range n).map (fun part => if part = 0 then a else b) =
      a :: List.replicate (n - 1) b := by
  have haux : ∀ (k s : Nat), 1 ≤ s →
      (List.range' s k).map (fun part => if part = 0 then a else b) =
        List.replicate k b := by
    intro k
    induction k with
    | zero => intro s _; rfl
    | succ m ih =>
      intro s hs
      rw [List.range'_succ, List.map_cons, if_neg (by omega), ih (s + 1) (by omega),
        List.replicate_succ]
  obtain ⟨m, rfl⟩ : ∃ m, n = m + 1 := ⟨n - 1, by omega⟩
  rw [List.range_eq_range', List.range'_succ, List.map_cons, if_pos rfl,
    haux m 1 le_rfl]
  simp

/-- Elementwise addition of a broadcast against a list of matching
length is a map. -/
theorem addLanes_replicate (a : Int) (n : Nat) (l : List Int)
    (h : l.length = n) :
    addLanes (List.replicate n a) l = l.map (fun x => a + x) := by
  subst h
  induction l with
  | nil => rfl
  | cons x xs ih => simp [List.replicate_succ, addLanes, ih]

/-- The canonical-IV-increment fold copies the cache's entry 0 for every
part other than 0. -/
theorem canIVIncrement_foldl_copy (A : Int) :
    ∀ (n s : Nat) (v : Int) (rest : List Int), 1 ≤ s →
      (List.range' s n).foldl
        (fun cache part =>
          cache ++ [if part = 0 then A else cache.getD 0 0]) (v :: rest) =
        v :: (rest ++ List.replicate n v) := by
  intro n
  induction n with
  | zero => intro s v rest _; simp
  | succ m ih =>
    intro s v rest hs
    rw [List.range'_succ, List.foldl_cons, if_neg (by omega)]
    have hgd : (v :: rest).getD 0 0 = v := rfl
    rw [hgd]
    have hstep : (v :: rest) ++ [v] = v :: (rest ++ [v]) := by simp
    rw [hstep, ih (s + 1) v (rest ++ [v]) (by omega), List.append_assoc]
    simp [List.replicate_succ]

/-- The per-part cache built by the canonical-IV-increment lowering is
`phi + VF*UF` replicated across all parts. -/
theorem generateCanonicalIVIncrement_eq (phi0 : Int) (VF UF : Nat) :
    generateCanonicalIVIncrement phi0 VF UF =
      List.replicate UF (phi0 + createStepForVF VF UF) := by
  cases UF with
  | zero => rfl
  | succ m =>
    rw [generateCanonicalIVIncrement, List.range_eq_range', List.range'_succ,
      List.foldl_cons, if_pos rfl]
    have h0 : ([] : List Int) ++ [phi0 + createStepForVF VF (m + 1)] =
        (phi0 + createStepForVF VF (m + 1)) :: [] := by simp
    rw [h0, canIVIncrement_foldl_copy _ m 1 _ [] le_rfl]
    simp [List.replicate_succ]

/-- Summing an all-zero vector whose lane 0 was replaced by `x` gives
`x`. -/
theorem sum_set_zero_replicate (x : Int) (n : Nat) (h : 1 ≤ n) :
    ((List.replicate n (0 : Int)).set 0 x).sum = x := by
  obtain ⟨m, rfl⟩ : ∃ m, n = m + 1 := ⟨n - 1, by omega⟩
  simp [List.replicate_succ]

/-!
## Claim theorems
-/

/-- C8: a widened integer/float induction recipe is canonical exactly
when its start value is the literal constant zero and its induction
descriptor's step is the literal constant one. -/
theorem widenIntOrFpInduction_isCanonical_iff
    (r : VPWidenIntOrFpInductionRecipe) :
    r.isCanonical = true ↔
      r.startConstInt = some 0 ∧ r.stepSCEVConst = some 1 := by
  obtain ⟨sc, st⟩ := r
  cases sc <;> cases st <;>
    simp [VPWidenIntOrFpInductionRecipe.isCanonical]

/-- Witness for C8 at a concrete canonical recipe. -/
theorem widenIntOrFpInduction_isCanonical_iff_witness :
    VPWidenIntOrFpInductionRecipe.isCanonical ⟨some 0, some 1⟩ = true ↔
      (some (0 : Int) = some 0 ∧ some (1 : Int) = some 1) :=
  widenIntOrFpInduction_isCanonical_iff ⟨some 0, some 1⟩

/-- C6: for every part, a widened arithmetic recipe in the
may-generate-poison set emits its value with every poison-implying
numeric-safety flag cleared, even though the original instruction's
flags were first copied onto it; a recipe not in the set keeps exactly
the copied flags. -/
theorem widenRecipe_poison_flag_dropping (origFlags : IRFlags)
    (mayGeneratePoisonContains : Bool) (UF Part : Nat) (hPart : Part < UF) :
    (VPWidenRecipe.executeFlags origFlags mayGeneratePoisonContains UF)[Part]? =
      some (if mayGeneratePoisonContains then ⟨false, false, false⟩
            else origFlags) := by
  cases mayGeneratePoisonContains <;>
    simp [VPWidenRecipe.executeFlags, List.getElem?_range, hPart,
      dropPoisonGeneratingFlags]

/-- Witness for C6: with all flags set on the original and the recipe in
the poison set, part 0 of 2 carries no flags. -/
theorem widenRecipe_poison_flag_dropping_witness :
    (VPWidenRecipe.executeFlags ⟨true, true, true⟩ true 2)[0]? =
      some (if true then ⟨false, false, false⟩ else ⟨true, true, true⟩) :=
  widenRecipe_poison_flag_dropping ⟨true, true, true⟩ true 2 0 (by decide)

/-- C10: with no per-lane instance active, `VPInstruction::execute`
succeeds, invokes `generateInstruction` exactly once per part `0..UF-1`
in increasing order with the recipe's fast-math flags installed on the
emitter at every call, and leaves the state (in particular the emitter's
previous fast-math flags) restored. -/
theorem vpInstruction_execute_trace (FMF : FastMathFlags)
    (State : VPTransformState) (h : State.Instance = none) :
    VPInstruction.execute FMF State =
      some (State, (List.range State.UF).map
        (fun part => { part := part, fmfAtCall := FMF })) := by
  obtain ⟨UF, inst, fmf0⟩ := State
  cases h
  rfl

/-- Witness for C10 at a concrete state with two parts. -/
theorem vpInstruction_execute_trace_witness :
    VPInstruction.execute ⟨3⟩ ⟨2, none, ⟨7⟩⟩ =
      some ((⟨2, none, ⟨7⟩⟩ : VPTransformState),
        (List.range (2 : Nat)).map
          (fun part => { part := part, fmfAtCall := ⟨3⟩ })) :=
  vpInstruction_execute_trace ⟨3⟩ ⟨2, none, ⟨7⟩⟩ rfl

/-- C2: every part of the canonical-IV-increment lowering stores
`phi + VF*UF`, and every part's cached value is stream 0's value (a new
value is computed only for stream 0 and shared). -/
theorem canonicalIVIncrement_shared_across_parts (phi0 : Int)
    (VF UF Part : Nat) (hPart : Part < UF) :
    (generateCanonicalIVIncrement phi0 VF UF)[Part]? =
      some (phi0 + ((VF * UF : Nat) : Int)) ∧
    (generateCanonicalIVIncrement phi0 VF UF)[Part]? =
      (generateCanonicalIVIncrement phi0 VF UF)[0]? := by
  have h0 : (0 : Nat) < UF := by omega
  rw [generateCanonicalIVIncrement_eq]
  refine ⟨?_, ?_⟩
  · simp [List.getElem?_replicate, hPart, createStepForVF]
  · simp [List.getElem?_replicate, hPart, h0]

/-- Witness for C2 with `phi = 5`, `VF = 4`, `UF = 2`, part 1. -/
theorem canonicalIVIncrement_shared_across_parts_witness :
    (generateCanonicalIVIncrement 5 4 2)[1]? =
      some (5 + ((4 * 2 : Nat) : Int)) ∧
    (generateCanonicalIVIncrement 5 4 2)[1]? =
      (generateCanonicalIVIncrement 5 4 2)[0]? :=
  canonicalIVIncrement_shared_across_parts 5 4 2 1 (by decide)

/-- C1 counterexample: a pointer-induction recipe (and likewise a
scalar-IV-steps recipe) with no underlying instruction — so the
effect-free precondition holds vacuously — answers `true`, not `false`,
to both `mayWriteToMemory` and `mayReadFromMemory`: those two induction
kinds reach the conservative default of the read/write queries, contrary
to the claim. -/
theorem effectClassifier_pointerInduction_rw_counterexample :
    VPRecipeBase.mayWriteToMemory ⟨.VPWidenPointerInductionSC, false, none⟩ =
      some true ∧
    VPRecipeBase.mayReadFromMemory ⟨.VPWidenPointerInductionSC, false, none⟩ =
      some true ∧
    VPRecipeBase.mayWriteToMemory ⟨.VPScalarIVStepsSC, false, none⟩ =
      some true ∧
    VPRecipeBase.mayReadFromMemory ⟨.VPScalarIVStepsSC, false, none⟩ =
      some true ∧
    (some true : Option Bool) ≠ some false := by
  decide

/-- C1 (amended): under the precondition that the mirrored original
operation, when present, neither accesses memory nor has side effects,
`mayRead`/`mayWrite` answer `false` for the pure kinds of their own
dispatch lists (arithmetic/compare/select widening, GEP widening, blend,
reduction, phi widening, integer/float and canonical induction — but not
pointer induction or scalar-IV-steps, which hit the conservative default
there), and `mayHaveSideEffects` answers `false` for its pure-kind list,
which additionally includes pointer induction and scalar-IV-steps. -/
theorem effectClassifier_pure_kinds_false (r : VPRecipeBase)
    (hfree : ∀ I, r.underlyingValue = some I →
      I.mayWriteToMemory = false ∧ I.mayReadFromMemory = false ∧
      I.mayHaveSideEffects = false) :
    (pureRWKind r.vpDefID = true →
      r.mayWriteToMemory = some false ∧
      r.mayReadFromMemory = some false) ∧
    (pureSEKind r.vpDefID = true →
      r.mayHaveSideEffects = some false) := by
  obtain ⟨id, isStore, uv⟩ := r
  cases uv with
  | none =>
    cases id <;>
      simp [VPRecipeBase.mayWriteToMemory, VPRecipeBase.mayReadFromMemory,
        VPRecipeBase.mayHaveSideEffects, pureRWKind, pureSEKind]
  | some I =>
    obtain ⟨hw, hr, hs⟩ := hfree I rfl
    cases id <;>
      simp [VPRecipeBase.mayWriteToMemory, VPRecipeBase.mayReadFromMemory,
        VPRecipeBase.mayHaveSideEffects, pureRWKind, pureSEKind, hw, hr, hs]

/-- Witness for the amended C1 at a widened-arithmetic recipe mirroring
an effect-free instruction. -/
theorem effectClassifier_pure_kinds_false_witness :
    (pureRWKind VPDefID.VPWidenSC = true →
      VPRecipeBase.mayWriteToMemory
          ⟨.VPWidenSC, false, some ⟨false, false, false⟩⟩ = some false ∧
      VPRecipeBase.mayReadFromMemory
          ⟨.VPWidenSC, false, some ⟨false, false, false⟩⟩ = some false) ∧
    (pureSEKind VPDefID.VPWidenSC = true →
      VPRecipeBase.mayHaveSideEffects
          ⟨.VPWidenSC, false, some ⟨false, false, false⟩⟩ = some false) :=
  effectClassifier_pure_kinds_false ⟨.VPWidenSC, false, some ⟨false, false, false⟩⟩
    (by intro I hI; injection hI with h; subst h; exact ⟨rfl, rfl, rfl⟩)

/-- C9: for the pure widening kinds, each Effect Classifier query reports
an internal invariant violation (modelled as `none`) exactly when the
mirrored original instruction is present and has the corresponding
effect; hence under the effect-free precondition the assertion branch is
unreachable and every query returns an answer. -/
theorem effectClassifier_assert_iff_effectful (r : VPRecipeBase) :
    (pureRWKind r.vpDefID = true →
      (r.mayWriteToMemory = none ↔
        ∃ I, r.underlyingValue = some I ∧ I.mayWriteToMemory = true) ∧
      (r.mayReadFromMemory = none ↔
        ∃ I, r.underlyingValue = some I ∧ I.mayReadFromMemory = true)) ∧
    (pureSEKind r.vpDefID = true →
      (r.mayHaveSideEffects = none ↔
        ∃ I, r.underlyingValue = some I ∧ I.mayHaveSideEffects = true)) := by
  obtain ⟨id, isStore, uv⟩ := r
  cases uv with
  | none =>
    cases id <;>
      simp [VPRecipeBase.mayWriteToMemory, VPRecipeBase.mayReadFromMemory,
        VPRecipeBase.mayHaveSideEffects, pureRWKind, pureSEKind]
  | some I =>
    obtain ⟨iw, ir, ise⟩ := I
    cases id <;> cases iw <;> cases ir <;> cases ise <;>
      simp [VPRecipeBase.mayWriteToMemory, VPRecipeBase.mayReadFromMemory,
        VPRecipeBase.mayHaveSideEffects, pureRWKind, pureSEKind]

/-- Witness for C9 at a widened-arithmetic recipe whose mirrored
instruction writes to memory. -/
theorem effectClassifier_assert_iff_effectful_witness :
    (pureRWKind VPDefID.VPWidenSC = true →
      (VPRecipeBase.mayWriteToMemory
          ⟨.VPWidenSC, false, some ⟨true, false, false⟩⟩ = none ↔
        ∃ I, (some (⟨true, false, false⟩ : Instruction) = some I) ∧
          I.mayWriteToMemory = true) ∧
      (VPRecipeBase.mayReadFromMemory
          ⟨.VPWidenSC, false, some ⟨true, false, false⟩⟩ = none ↔
        ∃ I, (some (⟨true, false, false⟩ : Instruction) = some I) ∧
          I.mayReadFromMemory = true)) ∧
    (pureSEKind VPDefID.VPWidenSC = true →
      (VPRecipeBase.mayHaveSideEffects
          ⟨.VPWidenSC, false, some ⟨true, false, false⟩⟩ = none ↔
        ∃ I, (some (⟨true, false, false⟩ : Instruction) = some I) ∧
          I.mayHaveSideEffects = true)) :=
  effectClassifier_assert_iff_effectful ⟨.VPWidenSC, false, some ⟨true, false, false⟩⟩

/-- C7: inserting an unlinked recipe `R` before (or after) a linked
position recipe `P` and then immediately removing `R` succeeds, restores
every block's recipe sequence to its pre-insertion state, and leaves `R`
unlinked (its parent is `none`, and every recipe's parent is as before).
-/
theorem insert_then_remove_restores_block (R P b : Nat)
    (st : VPBasicBlocksState) (hR : st.parent R = none)
    (hP : st.parent P = some b) (hmem : R ∉ st.recipeLists b) :
    (∃ st1 st2,
      VPRecipeBase.insertBefore R P st = some st1 ∧
      VPRecipeBase.removeFromParent R st1 = some st2 ∧
      (∀ b2, st2.recipeLists b2 = st.recipeLists b2) ∧
      (∀ x, st2.parent x = st.parent x) ∧
      st2.parent R = none) ∧
    (∃ st1 st2,
      VPRecipeBase.insertAfter R P st = some st1 ∧
      VPRecipeBase.removeFromParent R st1 = some st2 ∧
      (∀ b2, st2.recipeLists b2 = st.recipeLists b2) ∧
      (∀ x, st2.parent x = st.parent x) ∧
      st2.parent R = none) := by
  constructor
  · refine ⟨{ recipeLists := fun b2 =>
                if b2 = b then listInsertBefore R P (st.recipeLists b)
                else st.recipeLists b2,
              parent := fun x => if x = R then some b else st.parent x },
            ?_, ?_, ?_, ?_, ?_, ?_⟩
    · exact { recipeLists := fun b2 =>
                if b2 = b then (listInsertBefore R P (st.recipeLists b)).erase R
                else st.recipeLists b2,
              parent := fun x => if x = R then none else st.parent x }
    · simp [VPRecipeBase.insertBefore, hR, hP]
    · simp [VPRecipeBase.removeFromParent]
      constructor
      · funext b2
        by_cases hb : b2 = b <;> simp [hb]
      · funext x
        by_cases hx : x = R <;> simp [hx]
    · intro b2
      by_cases hb : b2 = b <;>
        simp [hb, listInsertBefore_erase R P (st.recipeLists b) hmem]
    · intro x
      by_cases hx : x = R <;> simp [hx, hR]
    · simp
  · refine ⟨{ recipeLists := fun b2 =>
                if b2 = b then listInsertAfter R P (st.recipeLists b)
                else st.recipeLists b2,
              parent := fun x => if x = R then some b else st.parent x },
            ?_, ?_, ?_, ?_, ?_, ?_⟩
    · exact { recipeLists := fun b2 =>
                if b2 = b then (listInsertAfter R P (st.recipeLists b)).erase R
                else st.recipeLists b2,
              parent := fun x => if x = R then none else st.parent x }
    · simp [VPRecipeBase.insertAfter, hR, hP]
    · simp [VPRecipeBase.removeFromParent]
      constructor
      · funext b2
        by_cases hb : b2 = b <;> simp [hb]
      · funext x
        by_cases hx : x = R <;> simp [hx]
    · intro b2
      by_cases hb : b2 = b <;>
        simp [hb, listInsertAfter_erase R P (st.recipeLists b) hmem]
    · intro x
      by_cases hx : x = R <;> simp [hx, hR]
    · simp

/-- Witness for C7 on a two-recipe block: recipe 5 is unlinked, position
recipe 1 lives in block 0. -/
theorem insert_then_remove_restores_block_witness :
    (∃ st1 st2,
      VPRecipeBase.insertBefore 5 1
        ⟨fun b2 => if b2 = 0 then [1, 2] else [],
         fun x => if x = 1 then some 0 else if x = 2 then some 0 else none⟩ =
        some st1 ∧
      VPRecipeBase.removeFromParent 5 st1 = some st2 ∧
      (∀ b2, st2.recipeLists b2 =
        VPBasicBlocksState.recipeLists
          ⟨fun b2 => if b2 = 0 then [1, 2] else [],
           fun x => if x = 1 then some 0 else if x = 2 then some 0 else none⟩
          b2) ∧
      (∀ x, st2.parent x =
        VPBasicBlocksState.parent
          ⟨fun b2 => if b2 = 0 then [1, 2] else [],
           fun x => if x = 1 then some 0 else if x = 2 then some 0 else none⟩
          x) ∧
      st2.parent 5 = none) ∧
    (∃ st1 st2,
      VPRecipeBase.insertAfter 5 1
        ⟨fun b2 => if b2 = 0 then [1, 2] else [],
         fun x => if x = 1 then some 0 else if x = 2 then some 0 else none⟩ =
        some st1 ∧
      VPRecipeBase.removeFromParent 5 st1 = some st2 ∧
      (∀ b2, st2.recipeLists b2 =
        VPBasicBlocksState.recipeLists
          ⟨fun b2 => if b2 = 0 then [1, 2] else [],
           fun x => if x = 1 then some 0 else if x = 2 then some 0 else none⟩
          b2) ∧
      (∀ x, st2.parent x =
        VPBasicBlocksState.parent
          ⟨fun b2 => if b2 = 0 then [1, 2] else [],
           fun x => if x = 1 then some 0 else if x = 2 then some 0 else none⟩
          x) ∧
      st2.parent 5 = none) :=
  insert_then_remove_restores_block 5 1 0
    ⟨fun b2 => if b2 = 0 then [1, 2] else [],
     fun x => if x = 1 then some 0 else if x = 2 then some 0 else none⟩
    (by decide) (by decide) (by decide)

/-- C3: reduction-phi seeding — one placeholder per stream (exactly one
for an ordered reduction); for an additive reduction, stream 0's
placeholder is seeded with the start value (at vector width, inserted at
lane 0 of the identity vector) and every later stream's placeholder with
the additive identity, so the sum over all streams' seeds is the start
value; min/max and select-compare recurrences seed every placeholder
with the start value itself (broadcast at vector width). -/
theorem reductionPHI_seeding_spec (r : VPReductionPHIRecipe) (VF UF : Nat)
    (hVF : 1 ≤ VF) (hUF : 1 ≤ UF) :
    (r.executeSeeds VF UF).length = (if r.isOrdered then 1 else UF) ∧
    (r.rk = RecurKind.Add →
      (r.executeSeeds VF UF)[0]? =
        some (if (VF == 1 || r.isInLoop) = true then Val.scalar r.startV
              else CreateInsertElement (CreateVectorSplat VF 0) r.startV 0) ∧
      (∀ p, 1 ≤ p → p < (r.executeSeeds VF UF).length →
        (r.executeSeeds VF UF)[p]? =
          some (if (VF == 1 || r.isInLoop) = true then Val.scalar 0
                else CreateVectorSplat VF 0)) ∧
      ((r.executeSeeds VF UF).map valSum).sum = r.startV) ∧
    ((isMinMaxRecurrenceKind r.rk || isSelectCmpRecurrenceKind r.rk) = true →
      ∀ p, p < (r.executeSeeds VF UF).length →
        (r.executeSeeds VF UF)[p]? =
          some (if (VF == 1 || r.isInLoop) = true then Val.scalar r.startV
                else CreateVectorSplat VF r.startV)) := by
  have hL : 1 ≤ (if r.isOrdered then 1 else UF) := by split <;> omega
  refine ⟨?_, fun hAdd => ⟨?_, ?_, ?_⟩, fun hmm => ?_⟩
  · simp only [VPReductionPHIRecipe.executeSeeds]
    rw [range_map_ite _ _ _ hL]
    simp
    omega
  · simp only [VPReductionPHIRecipe.executeSeeds]
    rw [range_map_ite _ _ _ hL]
    by_cases h2 : (VF == 1 || r.isInLoop) = true <;>
      simp [hAdd, h2, isMinMaxRecurrenceKind, isSelectCmpRecurrenceKind,
        getRecurrenceIdentity]
  · simp only [VPReductionPHIRecipe.executeSeeds]
    rw [range_map_ite _ _ _ hL]
    intro p hp1 hplen
    obtain ⟨q, rfl⟩ : ∃ q, p = q + 1 := ⟨p - 1, by omega⟩
    simp only [List.getElem?_cons_succ]
    simp at hplen
    have hq : q < (if r.isOrdered then 1 else UF) - 1 := by omega
    by_cases h2 : (VF == 1 || r.isInLoop) = true <;>
      simp [hAdd, h2, isMinMaxRecurrenceKind, isSelectCmpRecurrenceKind,
        getRecurrenceIdentity, List.getElem?_replicate, hq]
  · simp only [VPReductionPHIRecipe.executeSeeds]
    rw [range_map_ite _ _ _ hL]
    by_cases h2 : (VF == 1 || r.isInLoop) = true <;>
      simp [hAdd, h2, isMinMaxRecurrenceKind, isSelectCmpRecurrenceKind,
        getRecurrenceIdentity, valSum, CreateInsertElement, CreateVectorSplat,
        List.sum_replicate, sum_set_zero_replicate r.startV VF hVF]
  · simp only [VPReductionPHIRecipe.executeSeeds]
    rw [range_map_ite _ _ _ hL]
    intro p hplen
    simp only [List.length_cons, List.length_replicate] at hplen
    cases p with
    | zero =>
      by_cases h2 : (VF == 1 || r.isInLoop) = true <;> simp [hmm, h2]
    | succ q =>
      have hq : q < (if r.isOrdered then 1 else UF) - 1 := by omega
      by_cases h2 : (VF == 1 || r.isInLoop) = true <;>
        simp [hmm, h2, List.getElem?_cons_succ, List.getElem?_replicate, hq]

/-- Witness for C3: the spec's section-8 scenario — width 4, unroll 2,
additive reduction with start 10 — where the seeds sum to 10. -/
theorem reductionPHI_seeding_spec_witness :
    ((VPReductionPHIRecipe.executeSeeds ⟨10, .Add, false, false⟩ 4 2).map
      valSum).sum = 10 :=
  ((reductionPHI_seeding_spec ⟨10, .Add, false, false⟩ 4 2 (by decide)
    (by decide)).2.1 rfl).2.2

/-- C4: first-order-recurrence splice — the "previous" operand is the
recurrence-phi's generated value at stream 0 and stream `s-1`'s generated
value of the current operand at stream `s ≥ 1`; a non-vector previous
value is stored unchanged (pass-through), and otherwise the stored
vector's lane 0 is the previous value's last lane while lanes `1..W-1`
are the current stream's lanes `0..W-2`. -/
theorem firstOrderRecurrenceSplice_spec (phiV : Val) (cur : Nat → Val)
    (Part : Nat) :
    (∀ s : Int, (if Part = 0 then phiV else cur (Part - 1)) = .scalar s →
      generateFirstOrderRecurrenceSplice phiV cur Part = .scalar s) ∧
    (∀ la lb : List Int,
      (if Part = 0 then phiV else cur (Part - 1)) = .vec la →
      cur Part = .vec lb → la.length = lb.length → 1 ≤ la.length →
      generateFirstOrderRecurrenceSplice phiV cur Part =
        .vec (la.drop (la.length - 1) ++ lb.take (lb.length - 1)) ∧
      (la.drop (la.length - 1) ++ lb.take (lb.length - 1))[0]? =
        la[la.length - 1]? ∧
      (∀ l, 1 ≤ l → l < la.length →
        (la.drop (la.length - 1) ++ lb.take (lb.length - 1))[l]? =
          lb[l - 1]?)) := by
  constructor
  · intro s hs
    simp [generateFirstOrderRecurrenceSplice, hs, Val.isVectorTy]
  · intro la lb hprev hcur hlen hpos
    have hdl : (la.drop (la.length - 1)).length = 1 := by
      simp [List.length_drop]; omega
    refine ⟨?_, ?_, ?_⟩
    · simp [generateFirstOrderRecurrenceSplice, hprev, Val.isVectorTy,
        CreateVectorSplice, hcur]
    · rw [List.getElem?_append_left (by omega), List.getElem?_drop]
      simp
    · intro l hl1 hl2
      rw [List.getElem?_append_right (by omega), hdl,
        List.getElem?_take_of_lt (by omega)]

/-- Witness for C4: stream 1 with previous vector `[1, 2]` (stream 0 of
the current operand) and current vector `[3, 4]` splices to `[2, 3]`. -/
theorem firstOrderRecurrenceSplice_spec_witness :
    generateFirstOrderRecurrenceSplice (Val.vec [9, 9])
        (fun p => if p = 0 then Val.vec [1, 2] else Val.vec [3, 4]) 1 =
      .vec (([1, 2] : List Int).drop (([1, 2] : List Int).length - 1) ++
        ([3, 4] : List Int).take (([3, 4] : List Int).length - 1)) ∧
    (([1, 2] : List Int).drop (([1, 2] : List Int).length - 1) ++
        ([3, 4] : List Int).take (([3, 4] : List Int).length - 1))[0]? =
      ([1, 2] : List Int)[([1, 2] : List Int).length - 1]? ∧
    (∀ l, 1 ≤ l → l < ([1, 2] : List Int).length →
      (([1, 2] : List Int).drop (([1, 2] : List Int).length - 1) ++
          ([3, 4] : List Int).take (([3, 4] : List Int).length - 1))[l]? =
        ([3, 4] : List Int)[l - 1]?) :=
  (firstOrderRecurrenceSplice_spec (Val.vec [9, 9])
      (fun p => if p = 0 then Val.vec [1, 2] else Val.vec [3, 4]) 1).2
    [1, 2] [3, 4] (by decide) (by decide) (by decide) (by decide)

/-- C5 counterexample: with counter 0, width 2 and unroll 2, stream 1 of
the widened canonical IV is `[2, 3]` — lane `l` holds
`counter + VF*stream + l` — not `[1, 2]` as the claimed per-stream base
offset `stream` (lane `l` holding `counter + stream + l`) would give. -/
theorem widenCanonicalIV_base_offset_counterexample :
    (VPWidenCanonicalIVRecipe.execute 0 2 2)[1]? = some (Val.vec [2, 3]) ∧
    some (Val.vec [2, 3]) ≠ some (Val.vec [1, 2]) := by
  decide

/-- C5 (amended): the scalar canonical counter is broadcast to width
`VF` (reused directly at unit width) and stream `Part` adds a step
vector whose base offset is `VF * Part` (not `Part`); at unit width the
emitted value is `counter + VF*Part`, and for `VF > 1` lane `l` of
stream `Part` holds `counter + VF*Part + l`. -/
theorem widenCanonicalIV_lane_values (canonicalIV : Int)
    (VF UF Part lane : Nat) (hPart : Part < UF) (hlane : lane < VF) :
    (VF = 1 → (VPWidenCanonicalIVRecipe.execute canonicalIV VF UF)[Part]? =
      some (.scalar (canonicalIV + ((VF * Part : Nat) : Int)))) ∧
    (1 < VF → ∃ ls,
      (VPWidenCanonicalIVRecipe.execute canonicalIV VF UF)[Part]? =
        some (.vec ls) ∧ ls.length = VF ∧
      ls[lane]? =
        some (canonicalIV + ((VF * Part : Nat) : Int) + (lane : Int))) := by
  constructor
  · intro h1
    subst h1
    simp [VPWidenCanonicalIVRecipe.execute, List.getElem?_range, hPart,
      CreateAdd, createStepForVF]
  · intro h2
    have hne : ¬ (VF = 1) := by omega
    have hsteps : addLanes (List.replicate VF ((VF : Int) * (Part : Int)))
        (CreateStepVector VF) =
        (List.range VF).map
          (fun i : Nat => (VF : Int) * (Part : Int) + (i : Int)) := by
      rw [CreateStepVector, addLanes_replicate _ VF _ (by simp), List.map_map]
      rfl
    have houter : addLanes (List.replicate VF canonicalIV)
        ((List.range VF).map
          (fun i : Nat => (VF : Int) * (Part : Int) + (i : Int))) =
        (List.range VF).map
          (fun i : Nat =>
            canonicalIV + ((VF : Int) * (Part : Int) + (i : Int))) := by
      rw [addLanes_replicate _ VF _ (by simp), List.map_map]
      rfl
    refine ⟨(List.range VF).map
        (fun i : Nat =>
          canonicalIV + ((VF : Int) * (Part : Int) + (i : Int))),
      ?_, ?_, ?_⟩
    · simp [VPWidenCanonicalIVRecipe.execute, List.getElem?_range, hPart,
        hne, h2, CreateAdd, CreateVectorSplat, createStepForVF]
      rw [hsteps, houter]
    · simp
    · simp [List.getElem?_map, List.getElem?_range, hlane, add_assoc]

/-- Witness for the amended C5 at counter 0, width 2, unroll 2,
stream 1, lane 0. -/
theorem widenCanonicalIV_lane_values_witness :
    ((2 : Nat) = 1 → (VPWidenCanonicalIVRecipe.execute 0 2 2)[1]? =
      some (.scalar (0 + ((2 * 1 : Nat) : Int)))) ∧
    ((1 : Nat) < 2 → ∃ ls,
      (VPWidenCanonicalIVRecipe.execute 0 2 2)[1]? =
        some (.vec ls) ∧ ls.length = 2 ∧
      ls[0]? = some (0 + ((2 * 1 : Nat) : Int) + ((0 : Nat) : Int))) :=
  widenCanonicalIV_lane_values 0 2 2 1 0 (by decide) (by decide)
